import Mathlib

/-!
Verification development for the data-frame analytics core of ml-cpp
(api layer): the boosted-tree inference-model builder, the analysis
instrumentation, the analysis specification and runner orchestration, the
NDJSON output writer, and the compressed model-definition stream.

The repository ships the public headers and the unit tests; the
implementation translation units are not part of the source tree here, so
the operational definitions below are modelled from the specification
document (and the behavior pinned by the unit tests), as indicated by the
doc comments.  Scalar doubles are modelled as rationals and machine sizes
as naturals.
-/

set_option autoImplicit false

namespace MlApi

/-! ### Model-definition value types (api::CInferenceModelDefinition) -/

/-- Aggregation function of an ensemble (api::CAggregateOutput variants). -/
inductive EAggregateOutput where
  | weightedSum
  | logisticRegression
  | exponent
  deriving DecidableEq, Repr, Inhabited

/-- The serialized name of an aggregation function, as asserted by the unit
tests via aggregateOutput()->stringType(). -/
def EAggregateOutput.stringType : EAggregateOutput → String
  | .weightedSum => "weighted_sum"
  | .logisticRegression => "logistic_regression"
  | .exponent => "exponent"

/-- Target type of a trained model (api::CTrainedModel::E_Regression /
E_Classification). -/
inductive ETargetType where
  | regression
  | classification
  deriving DecidableEq, Repr, Inhabited

/-- Regression loss-function kinds
(maths::analytics::boosted_tree::ELossType, regression members): the
mean-squared-error family (ordinary MSE and pseudo-Huber) and
mean-squared-log-error. -/
inductive ELossType where
  | mseRegression
  | msleRegression
  | huberRegression
  deriving DecidableEq, Repr, Inhabited

/-- The mean-squared-error family of regression losses. -/
def ELossType.isMseFamily : ELossType → Prop
  | .mseRegression => True
  | .huberRegression => True
  | .msleRegression => False

instance (l : ELossType) : Decidable l.isMseFamily := by
  cases l <;> simp [ELossType.isMseFamily] <;> infer_instance

/-- One node of a decision tree (api::CTree::CTreeNode).  The leaf value is
a vector to support multi-valued leaves; absent children mark a leaf. -/
structure CTreeNode where
  splitFeature : Nat
  splitValue : Rat
  assignMissingToLeft : Bool
  nodeValue : List Rat
  gain : Rat
  numberSamples : Nat
  leftChild : Option Nat
  rightChild : Option Nat
  deriving DecidableEq, Repr, Inhabited

/-- A one-hot-encoding preprocessor (api::COneHotEncoding): the input
column name and the hot map from category value to generated feature name,
in registration order. -/
structure COneHotEncoding where
  field : String
  hotMap : List (String × String)
  deriving DecidableEq, Repr, Inhabited

/-- A frequency-encoding preprocessor (api::CFrequencyEncoding). -/
structure CFrequencyEncoding where
  field : String
  featureName : String
  frequencyMap : List (String × Rat)
  deriving DecidableEq, Repr, Inhabited

/-- A target-mean-encoding preprocessor (api::CTargetMeanEncoding) with its
fallback value for unseen categories. -/
structure CTargetMeanEncoding where
  field : String
  featureName : String
  targetMap : List (String × Rat)
  defaultValue : Rat
  deriving DecidableEq, Repr, Inhabited

/-- A preprocessor of the exported model definition: one-hot, frequency,
target-mean, or an opaque custom processor passed through verbatim.  There
is no identity preprocessor variant in the exported artifact. -/
inductive CEncoding where
  | oneHot (e : COneHotEncoding)
  | frequency (e : CFrequencyEncoding)
  | targetMean (e : CTargetMeanEncoding)
  | custom (value : String)
  deriving DecidableEq, Repr, Inhabited

/-- True exactly on one-hot preprocessors for input column f. -/
def CEncoding.isOneHotFor (f : String) : CEncoding → Bool
  | .oneHot e => e.field = f
  | _ => false

/-- The trained ensemble of the exported model (api::CEnsemble). -/
structure CEnsemble where
  trainedModels : List (List CTreeNode)
  aggregateOutput : EAggregateOutput
  targetType : ETargetType
  classificationLabels : Option (List String)
  classificationWeights : Option (List Rat)
  featureNames : List String
  deriving DecidableEq, Repr, Inhabited

/-- The exported artifact (api::CInferenceModelDefinition): an ordered list
of preprocessors and one trained model. -/
structure CInferenceModelDefinition where
  preprocessors : List CEncoding
  trainedModel : CEnsemble
  deriving DecidableEq, Repr, Inhabited

/-! ### The inference-model builder
(api::CBoostedTreeInferenceModelBuilder and its regression and
classification subclasses)

Modelled from the spec: the builder implementation translation unit is not
in the source tree; the state layout follows the header
(CBoostedTreeInferenceModelBuilder.h: m_Definition, m_FeatureNames,
m_OneHotEncodingMaps keyed by column name, m_CustomProcessors) and the
behavior follows spec section 4.4 and the expectations of
CBoostedTreeInferenceModelBuilderTest.cc. -/

/-- Builder state: the constructor arguments (field names, the
dependent-variable column index, per-column category names) plus the
accumulated feature-name table, trees, directly appended preprocessors
(frequency and target-mean, in registration order), the per-column one-hot
accumulation map, and the custom processors. -/
structure CBoostedTreeInferenceModelBuilder where
  fieldNames : List String
  dependentVariableColumnIndex : Nat
  categoryNames : List (List String)
  featureNames : List String
  trees : List (List CTreeNode)
  directPreprocessors : List CEncoding
  oneHotEncodingMaps : List (String × List (String × String))
  customProcessors : List String
  deriving DecidableEq, Repr, Inhabited

/-- The builder constructor: all accumulators start empty. -/
def mkBuilder (fieldNames : List String) (dependentVariableColumnIndex : Nat)
    (categoryNames : List (List String)) : CBoostedTreeInferenceModelBuilder :=
  { fieldNames := fieldNames
    dependentVariableColumnIndex := dependentVariableColumnIndex
    categoryNames := categoryNames
    featureNames := []
    trees := []
    directPreprocessors := []
    oneHotEncodingMaps := []
    customProcessors := [] }

/-- The name of input column col. -/
def fieldNameOf (st : CBoostedTreeInferenceModelBuilder) (col : Nat) : String :=
  st.fieldNames.getD col ""

/-- The name of category cat of input column col. -/
def categoryNameOf (st : CBoostedTreeInferenceModelBuilder) (col cat : Nat) : String :=
  (st.categoryNames.getD col []).getD cat ""

/-- Modelled from the spec: target-mean and frequency encodings build a
category-to-value map from a dense vector indexed by category ordinal
(spec section 4.4), here the category names of the column zipped with the
dense vector. -/
def encodingMap (st : CBoostedTreeInferenceModelBuilder) (col : Nat) (map : List Rat) :
    List (String × Rat) :=
  List.zip (st.categoryNames.getD col []) map

/-- Append one hot-category entry to the per-column one-hot accumulation
map: the entry is appended to the existing preprocessor of the column if
one exists, otherwise a fresh per-column entry is opened. -/
def oneHotInsert : List (String × List (String × String)) → String → (String × String) →
    List (String × List (String × String))
  | [], f, e => [(f, [e])]
  | (g, m) :: rest, f, e =>
    if g = f then (g, m ++ [e]) :: rest else (g, m) :: oneHotInsert rest f e

/-- Append a node to the most recently opened tree. -/
def appendToLastTree : List (List CTreeNode) → CTreeNode → List (List CTreeNode)
  | [], n => [[n]]
  | [t], n => [t ++ [n]]
  | t :: rest, n => t :: appendToLastTree rest n

/-- One visitor call on the builder. -/
inductive BuilderOp where
  | addTree
  | addNode (splitFeature : Nat) (splitValue : Rat) (assignMissingToLeft : Bool)
      (nodeValue : List Rat) (gain : Rat) (numberSamples : Nat)
      (leftChild rightChild : Option Nat)
  | addIdentityEncoding (inputColumnIndex : Nat)
  | addOneHotEncoding (inputColumnIndex : Nat) (hotCategory : Nat)
  | addTargetMeanEncoding (inputColumnIndex : Nat) (map : List Rat) (fallback : Rat)
  | addFrequencyEncoding (inputColumnIndex : Nat) (map : List Rat)
  | addCustomProcessor (value : String)
  deriving DecidableEq, Repr, Inhabited

/-- Modelled from the spec: the effect of one visitor call (spec section
4.4).  Every encoding registration appends the generated feature name to
the ordered feature-name table; identity encodings register only the name;
one-hot registrations accumulate into the per-column one-hot map with
feature name column-name underscore category; frequency and target-mean
append a preprocessor directly with suffixed feature names. -/
def applyOp (st : CBoostedTreeInferenceModelBuilder) :
    BuilderOp → CBoostedTreeInferenceModelBuilder
  | .addTree => { st with trees := st.trees ++ [[]] }
  | .addNode sf sv ml nv g ns lc rc =>
      { st with trees := appendToLastTree st.trees ⟨sf, sv, ml, nv, g, ns, lc, rc⟩ }
  | .addIdentityEncoding col =>
      { st with featureNames := st.featureNames ++ [fieldNameOf st col] }
  | .addOneHotEncoding col cat =>
      let f := fieldNameOf st col
      let c := categoryNameOf st col cat
      { st with
        featureNames := st.featureNames ++ [f ++ "_" ++ c]
        oneHotEncodingMaps := oneHotInsert st.oneHotEncodingMaps f (c, f ++ "_" ++ c) }
  | .addTargetMeanEncoding col map fallback =>
      let f := fieldNameOf st col
      { st with
        featureNames := st.featureNames ++ [f ++ "_targetmean"]
        directPreprocessors := st.directPreprocessors ++
          [.targetMean ⟨f, f ++ "_targetmean", encodingMap st col map, fallback⟩] }
  | .addFrequencyEncoding col map =>
      let f := fieldNameOf st col
      { st with
        featureNames := st.featureNames ++ [f ++ "_frequency"]
        directPreprocessors := st.directPreprocessors ++
          [.frequency ⟨f, f ++ "_frequency", encodingMap st col map⟩] }
  | .addCustomProcessor v => { st with customProcessors := st.customProcessors ++ [v] }

/-- Apply a sequence of visitor calls in order. -/
def applyOps (st : CBoostedTreeInferenceModelBuilder) (ops : List BuilderOp) :
    CBoostedTreeInferenceModelBuilder :=
  ops.foldl applyOp st

/-- The preprocessor list of the built definition: the directly appended
frequency and target-mean preprocessors, then one one-hot preprocessor per
column of the accumulation map, then the custom processors verbatim. -/
def definitionPreprocessors (st : CBoostedTreeInferenceModelBuilder) : List CEncoding :=
  st.directPreprocessors
    ++ st.oneHotEncodingMaps.map (fun p => CEncoding.oneHot ⟨p.1, p.2⟩)
    ++ st.customProcessors.map CEncoding.custom

/-- Modelled from the spec: the regression subclass maps the stored
loss-function kind to the aggregation function; the mean-squared-error
family yields weighted-sum and mean-squared-log-error yields exponent
(spec section 4.4, pinned by testIntegrationRegression and
testIntegrationMsleRegression). -/
def aggregateOutputForLoss : ELossType → EAggregateOutput
  | .msleRegression => .exponent
  | _ => .weightedSum

/-- Modelled from the spec: build() of CRegressionInferenceModelBuilder
after addLossFunction stored lossType: target type regression, no
classification labels or weights, aggregation chosen from the loss. -/
def regressionBuild (st : CBoostedTreeInferenceModelBuilder) (lossType : ELossType) :
    CInferenceModelDefinition :=
  { preprocessors := definitionPreprocessors st
    trainedModel :=
      { trainedModels := st.trees
        aggregateOutput := aggregateOutputForLoss lossType
        targetType := .regression
        classificationLabels := none
        classificationWeights := none
        featureNames := st.featureNames } }

/-- Modelled from the spec: build() of CClassificationInferenceModelBuilder
after addClassificationWeights stored weights: target type classification,
aggregation logistic regression, labels taken verbatim from the category
names of the dependent-variable column. -/
def classificationBuild (st : CBoostedTreeInferenceModelBuilder) (weights : List Rat) :
    CInferenceModelDefinition :=
  { preprocessors := definitionPreprocessors st
    trainedModel :=
      { trainedModels := st.trees
        aggregateOutput := .logisticRegression
        targetType := .classification
        classificationLabels :=
          some (st.categoryNames.getD st.dependentVariableColumnIndex [])
        classificationWeights := some weights
        featureNames := st.featureNames } }

/-! ### Row scoring for classification predictions

Modelled from the spec: the per-row output writer of the prediction runner
is not in the source tree; per spec section 8, for every predicted row the
reported label is the most probable class, the reported probability is that
class's probability, and the reported score is the classification weight of
that class times the probability. -/

/-- One predicted row of classification output. -/
structure SRowPrediction where
  labelIndex : Nat
  probability : Rat
  score : Rat
  deriving DecidableEq, Repr, Inhabited

/-- The index of the largest element (first occurrence on ties). -/
def argmaxIdx : List Rat → Nat
  | [] => 0
  | x :: xs =>
    let j := argmaxIdx xs
    if xs ≠ [] ∧ x < xs.getD j 0 then j + 1 else 0

/-- Modelled from the spec: write one classification prediction row from
the per-class probabilities and the stored classification weights. -/
def writeRowPrediction (weights probabilities : List Rat) : SRowPrediction :=
  let idx := argmaxIdx probabilities
  { labelIndex := idx
    probability := probabilities.getD idx 0
    score := weights.getD idx 0 * probabilities.getD idx 0 }

/-! ### Instrumentation (api::CDataFrameAnalysisInstrumentation)

Modelled from the spec: the implementation translation unit is not in the
source tree.  The state layout follows the header (m_Finished,
m_FractionalProgress - an atomic integer scaled by 1024, m_Memory,
m_ProgressMonitoredTask) and the transitions follow spec section 4.3 and
the header doc comments. -/

/-- Instrumentation state: the job id and memory limit from the
constructor, the one-way finished flag, the scaled progress accumulator
(1024 means all of the task's work done), the signed memory counter and
the current task name. -/
structure CDataFrameAnalysisInstrumentation where
  jobId : String
  memoryLimit : Nat
  finished : Bool
  fractionalProgress : Nat
  memory : Int
  progressMonitoredTask : String
  deriving DecidableEq, Repr, Inhabited

/-- Constructor: no task, zero progress and memory, not finished. -/
def mkInstrumentation (jobId : String) (memoryLimit : Nat) :
    CDataFrameAnalysisInstrumentation :=
  { jobId := jobId
    memoryLimit := memoryLimit
    finished := false
    fractionalProgress := 0
    memory := 0
    progressMonitoredTask := "" }

/-- One instrumentation call from the worker thread. -/
inductive InstrumentationOp where
  | updateProgress (fractionalProgress : Rat)
  | startNewProgressMonitoredTask (task : String)
  | updateMemoryUsage (delta : Int)
  | setToFinished
  deriving DecidableEq, Repr, Inhabited

/-- Modelled from the spec: updateProgress accumulates the fractional
progress scaled by 1024 and rounded to an integer (header doc comment);
startNewProgressMonitoredTask resets the accumulator to zero and records
the task name; updateMemoryUsage applies a signed delta; setToFinished
raises the one-way terminal flag (spec section 4.3). -/
def applyInstrOp (st : CDataFrameAnalysisInstrumentation) :
    InstrumentationOp → CDataFrameAnalysisInstrumentation
  | .updateProgress f =>
      { st with fractionalProgress :=
          st.fractionalProgress + (⌊1024 * f + 1/2⌋).toNat }
  | .startNewProgressMonitoredTask t =>
      { st with fractionalProgress := 0, progressMonitoredTask := t }
  | .updateMemoryUsage d => { st with memory := st.memory + d }
  | .setToFinished => { st with finished := true }

/-- Apply a sequence of instrumentation calls in order. -/
def applyInstrOps (st : CDataFrameAnalysisInstrumentation)
    (ops : List InstrumentationOp) : CDataFrameAnalysisInstrumentation :=
  ops.foldl applyInstrOp st

/-- progress(): the proportion of the task's work complete, in [0,1]
(the scaled accumulator, saturated at 1024, divided by the scale). -/
def progress (st : CDataFrameAnalysisInstrumentation) : Rat :=
  (min st.fractionalProgress 1024 : Nat) / 1024

/-- True when the op is startNewProgressMonitoredTask. -/
def InstrumentationOp.isStartTask : InstrumentationOp → Bool
  | .startNewProgressMonitoredTask _ => true
  | _ => false

/-- One flushed progress document. -/
structure SFlushRecord where
  task : String
  progress : Rat
  memory : Int
  deriving DecidableEq, Repr, Inhabited

/-- flush(): serialize the current task, progress and memory. -/
def flush (st : CDataFrameAnalysisInstrumentation) : SFlushRecord :=
  ⟨st.progressMonitoredTask, progress st, st.memory⟩

/-- Modelled from the spec: the static monitor loop polls a sequence of
instrumentation states, returns exactly at the first poll whose state is
finished, and performs a final flush of that state after completion (spec
section 4.3).  The result is the number of polls before returning paired
with the final flushed document; an unfinished sequence gives no result. -/
def monitorRun : List CDataFrameAnalysisInstrumentation → Option (Nat × SFlushRecord)
  | [] => none
  | s :: rest =>
    if s.finished then some (0, flush s)
    else (monitorRun rest).map (fun r => (r.1 + 1, r.2))

/-! ### Analysis specification (api::CDataFrameAnalysisSpecification)

Modelled from the spec: the parsing translation unit is not in the source
tree.  The field set follows the header's documented JSON form and spec
section 6; required numeric constraints must be present and positive and
the analysis name must match a registered runner factory, otherwise the
state is bad and the analysis never runs (spec sections 4.1 and 7). -/

/-- The raw JSON fields of a specification, each possibly absent. -/
structure SSpecificationJson where
  jobId : Option String
  rows : Option Int
  cols : Option Int
  memoryLimit : Option Int
  threads : Option Int
  temporaryDirectory : Option String
  resultsField : Option String
  missingFieldValue : Option String
  categoricalFieldNames : Option (List String)
  diskUsageAllowed : Option Bool
  analysisName : Option String
  deriving DecidableEq, Repr, Inhabited

/-- A successfully parsed specification. -/
structure SParsedSpecification where
  jobId : String
  numberRows : Nat
  numberColumns : Nat
  memoryLimit : Nat
  numberThreads : Nat
  temporaryDirectory : String
  resultsField : String
  missingFieldValue : String
  categoricalFieldNames : List String
  diskUsageAllowed : Bool
  analysisName : String
  deriving DecidableEq, Repr, Inhabited

/-- Specification state after construction: either good with the parsed
fields, or bad. -/
inductive ESpecificationState where
  | good (spec : SParsedSpecification)
  | bad
  deriving DecidableEq, Repr, Inhabited

/-- Read a numeric constraint: present and strictly positive. -/
def parsePositive : Option Int → Option Nat
  | some n => if 0 < n then some n.toNat else none
  | none => none

/-- Modelled from the spec: construct a specification from its JSON
fields, given the names of the registered runner factories.  Construction
is total: invalid input yields the bad state rather than an exception
crossing into caller code (spec sections 4.1 and 7). -/
def parseSpecification (runnerNames : List String) (j : SSpecificationJson) :
    ESpecificationState :=
  match parsePositive j.rows, parsePositive j.cols,
        parsePositive j.memoryLimit, parsePositive j.threads with
  | some rows, some cols, some memoryLimit, some threads =>
    match j.analysisName with
    | some name =>
      if runnerNames.contains name then
        .good
          { jobId := j.jobId.getD ""
            numberRows := rows
            numberColumns := cols
            memoryLimit := memoryLimit
            numberThreads := threads
            temporaryDirectory := j.temporaryDirectory.getD ""
            resultsField := j.resultsField.getD ""
            missingFieldValue := j.missingFieldValue.getD ""
            categoricalFieldNames := j.categoricalFieldNames.getD []
            diskUsageAllowed := j.diskUsageAllowed.getD false
            analysisName := name }
      else .bad
    | none => .bad
  | _, _, _, _ => .bad

/-- The runner handle obtained from a specification: a bad specification
yields a runner that immediately reports failure. -/
inductive ERunnerState where
  | immediateFailure
  | ready (spec : SParsedSpecification)
  deriving DecidableEq, Repr, Inhabited

/-- runner(): materialize the runner for the specification state. -/
def runnerOf : ESpecificationState → ERunnerState
  | .bad => .immediateFailure
  | .good s => .ready s

/-- The outcome of asking the runner to run. -/
inductive ERunOutcome where
  | failureReported
  | started (spec : SParsedSpecification)
  deriving DecidableEq, Repr, Inhabited

/-- run(): a failure runner reports failure instead of running. -/
def runRunner : ERunnerState → ERunOutcome
  | .immediateFailure => .failureReported
  | .ready s => .started s

/-- A required field of the modelled specification is missing. -/
def missingRequiredField (j : SSpecificationJson) : Prop :=
  j.rows = none ∨ j.cols = none ∨ j.memoryLimit = none ∨ j.threads = none ∨
    j.analysisName = none

/-- Some numeric constraint is present but not positive. -/
def nonPositiveConstraint (j : SSpecificationJson) : Prop :=
  (∃ n, j.rows = some n ∧ n ≤ 0) ∨ (∃ n, j.cols = some n ∧ n ≤ 0) ∨
    (∃ n, j.memoryLimit = some n ∧ n ≤ 0) ∨ (∃ n, j.threads = some n ∧ n ≤ 0)

/-- The analysis name matches no registered factory. -/
def unknownAnalysisName (runnerNames : List String) (j : SSpecificationJson) : Prop :=
  ∀ name, j.analysisName = some name → runnerNames.contains name = false

/-! ### Execution strategy (api::CDataFrameAnalysisRunner)

Modelled from the spec: computeAndSaveExecutionStrategy is not in the
source tree; per spec section 4.4 it chooses the smallest number of row
partitions whose resident memory fits the limit, only one partition may be
used when disk usage is disallowed, and an infeasible memory budget is a
fatal reported condition before any row is processed. -/

/-- A chosen execution strategy. -/
structure SExecutionStrategy where
  numberPartitions : Nat
  numberThreads : Nat
  deriving DecidableEq, Repr, Inhabited

/-- Fatal configuration errors of strategy computation. -/
inductive EStrategyError where
  | infeasibleMemoryBudget
  deriving DecidableEq, Repr, Inhabited

/-- Modelled from the spec: choose the smallest feasible number of
partitions; without disk usage only a single partition is allowed; if no
partition count fits the memory limit the budget is infeasible. -/
def computeExecutionStrategy (memoryLimit : Nat) (diskUsageAllowed : Bool)
    (memoryUsageWithPartitions : Nat → Nat) (numberRows numberThreads : Nat) :
    Except EStrategyError SExecutionStrategy :=
  let maximumNumberPartitions := if diskUsageAllowed then max numberRows 1 else 1
  match (List.range maximumNumberPartitions).find?
      (fun p => memoryUsageWithPartitions (p + 1) ≤ memoryLimit) with
  | some p => .ok ⟨p + 1, numberThreads⟩
  | none => .error .infeasibleMemoryBudget

/-- The lifecycle state of a job. -/
inductive EJobState where
  | failed (e : EStrategyError)
  | ready (s : SExecutionStrategy)
  | running (s : SExecutionStrategy)
  deriving DecidableEq, Repr, Inhabited

/-- Modelled from the spec: constructing the runner computes and saves the
execution strategy; a strategy error is captured as a terminal failed
state before any row is processed. -/
def setupJob (memoryLimit : Nat) (diskUsageAllowed : Bool)
    (memoryUsageWithPartitions : Nat → Nat) (numberRows numberThreads : Nat) :
    EJobState :=
  match computeExecutionStrategy memoryLimit diskUsageAllowed
      memoryUsageWithPartitions numberRows numberThreads with
  | .ok s => .ready s
  | .error e => .failed e

/-- run(): only a ready job starts running; failed jobs stay failed. -/
def startJob : EJobState → EJobState
  | .ready s => .running s
  | st => st

/-! ### NDJSON output writer (api::CNdJsonOutputWriter)

Modelled from the spec: the implementation translation unit is not in the
source tree; the header documents the two-argument fieldNames overload as
having no effect and always returning true. -/

/-- Writer state: the configured numeric fields and the observable output
written so far. -/
structure CNdJsonOutputWriter where
  numericFields : List String
  internalString : String
  deriving DecidableEq, Repr, Inhabited

/-- writeRow: append the row's fields as one single-line JSON document to
the output (the override fields replace same-named row fields). -/
def writerWriteRow (w : CNdJsonOutputWriter)
    (dataRowFields overrideDataRowFields : List (String × String)) :
    Bool × CNdJsonOutputWriter :=
  let fields := dataRowFields.filter
      (fun f => (overrideDataRowFields.lookup f.1).isNone) ++ overrideDataRowFields
  let doc := String.intercalate ","
      (fields.map (fun f => "\x22" ++ f.1 ++ "\x22:\x22" ++ f.2 ++ "\x22"))
  (true, { w with internalString := w.internalString ++ "\x7b" ++ doc ++ "\x7d\n" })

/-- Modelled from the spec: the fieldNames overload taking the field names
and the extra field names has no effect and always returns true (header
doc comment of CNdJsonOutputWriter::fieldNames). -/
def writerFieldNames (w : CNdJsonOutputWriter)
    (fieldNames extraFieldNames : List String) : Bool × CNdJsonOutputWriter :=
  (true, w)

/-! ### The compressed model-definition stream

Modelled from the spec: jsonCompressedStream chains the JSON serialization
through a gzip compressor and a base64 encoder, and the test helper
decompressStream chains a base64 decoder and a gzip decompressor
(CBoostedTreeInferenceModelBuilderTest.cc, decompressStream).  The codecs
below are executable byte-level models: standard base64 with padding, and
the gzip member format with stored-mode deflate blocks and a CRC-32
trailer.  Bytes are naturals below 256. -/

/-- The base64 alphabet. -/
def base64Alphabet : List Char :=
  ("ABCDEFGHIJKLMNOPQRSTUVWXYZabcdefghijklmnopqrstuvwxyz0123456789+/").toList

/-- Encode one sextet. -/
def base64EncodeChar (n : Nat) : Char :=
  base64Alphabet.getD n 'A'

/-- Index of a character in a list. -/
def indexOfChar : List Char → Char → Option Nat
  | [], _ => none
  | d :: rest, c => if d = c then some 0 else (indexOfChar rest c).map (· + 1)

/-- Decode one sextet. -/
def base64DecodeChar (c : Char) : Option Nat :=
  indexOfChar base64Alphabet c

/-- Base64-encode a byte list, three bytes to four characters, padding the
final group with one or two = characters. -/
def base64Encode : List Nat → List Char
  | [] => []
  | [b1] => [base64EncodeChar (b1 / 4), base64EncodeChar (b1 % 4 * 16), '=', '=']
  | [b1, b2] => [base64EncodeChar (b1 / 4), base64EncodeChar (b1 % 4 * 16 + b2 / 16),
      base64EncodeChar (b2 % 16 * 4), '=']
  | b1 :: b2 :: b3 :: rest =>
      base64EncodeChar (b1 / 4) :: base64EncodeChar (b1 % 4 * 16 + b2 / 16) ::
      base64EncodeChar (b2 % 16 * 4 + b3 / 64) :: base64EncodeChar (b3 % 64) ::
      base64Encode rest

/-- Base64-decode, four characters to three bytes, with a possibly padded
final group; malformed input gives none. -/
def base64Decode : List Char → Option (List Nat)
  | [] => some []
  | c1 :: c2 :: c3 :: c4 :: rest =>
    match base64DecodeChar c1, base64DecodeChar c2 with
    | some d1, some d2 =>
      if c3 = '=' then
        if c4 = '=' ∧ rest.isEmpty then some [d1 * 4 + d2 / 16] else none
      else
        match base64DecodeChar c3 with
        | some d3 =>
          if c4 = '=' then
            if rest.isEmpty then some [d1 * 4 + d2 / 16, d2 % 16 * 16 + d3 / 4] else none
          else
            match base64DecodeChar c4 with
            | some d4 =>
              (base64Decode rest).map
                (fun bs => (d1 * 4 + d2 / 16) :: (d2 % 16 * 16 + d3 / 4) ::
                  (d3 % 4 * 64 + d4) :: bs)
            | none => none
        | none => none
    | _, _ => none
  | _ => none

/-- Two-byte little-endian rendering. -/
def toLE2 (n : Nat) : List Nat :=
  [n % 256, n / 256 % 256]

/-- Four-byte little-endian rendering. -/
def toLE4 (n : Nat) : List Nat :=
  [n % 256, n / 256 % 256, n / 65536 % 256, n / 16777216 % 256]

/-- One bit step of the reflected CRC-32 polynomial. -/
def crc32BitStep (c : Nat) : Nat :=
  if c % 2 = 1 then Nat.xor (c / 2) 0xEDB88320 else c / 2

/-- CRC-32 of a byte list (the gzip checksum). -/
def crc32 (bs : List Nat) : Nat :=
  Nat.xor (bs.foldl (fun c b => crc32BitStep^[8] (Nat.xor c b)) 0xFFFFFFFF) 0xFFFFFFFF

/-- Deflate a byte list as stored (uncompressed) blocks: a one-byte block
header (1 marks the final block), the payload length and its ones
complement as two little-endian bytes each, then the raw payload;
payloads longer than 65535 bytes split into multiple blocks. -/
def deflateStored (bs : List Nat) : List Nat :=
  if bs.length ≤ 65535 then
    1 :: (toLE2 bs.length ++ toLE2 (65535 - bs.length) ++ bs)
  else
    0 :: (toLE2 65535 ++ toLE2 0 ++ bs.take 65535) ++ deflateStored (bs.drop 65535)
termination_by bs.length
decreasing_by simp [List.length_drop]; omega

/-- Inflate stored deflate blocks: returns the payload and the input
remaining after the final block; malformed input gives none. -/
def inflateStored (input : List Nat) : Option (List Nat × List Nat) :=
  match input with
  | b0 :: l1 :: l2 :: n1 :: n2 :: rest =>
    let len := l1 + 256 * l2
    if n1 + 256 * n2 = 65535 - len ∧ len ≤ rest.length then
      if b0 = 1 then some (rest.take len, rest.drop len)
      else if b0 = 0 then
        match inflateStored (rest.drop len) with
        | some (payload, remaining) => some (rest.take len ++ payload, remaining)
        | none => none
      else none
    else none
  | _ => none
termination_by input.length
decreasing_by simp [List.length_drop]; omega

/-- The fixed ten-byte gzip member header the compressor writes: magic
bytes, deflate method, empty flags and mtime, unknown OS. -/
def gzipHeader : List Nat :=
  [31, 139, 8, 0, 0, 0, 0, 0, 0, 255]

/-- Gzip-compress: header, stored-mode deflate stream, then the CRC-32 and
the input length modulo 2^32, four little-endian bytes each. -/
def gzipCompress (bs : List Nat) : List Nat :=
  gzipHeader ++ deflateStored bs ++ toLE4 (crc32 bs) ++ toLE4 (bs.length % 4294967296)

/-- Gzip-decompress: check the header, inflate the deflate stream, verify
the checksum and length trailer. -/
def gzipDecompress (input : List Nat) : Option (List Nat) :=
  if input.take 10 = gzipHeader then
    match inflateStored (input.drop 10) with
    | some (payload, remaining) =>
      if remaining = toLE4 (crc32 payload) ++ toLE4 (payload.length % 4294967296)
      then some payload else none
    | none => none
  else none

/-- UTF-8 bytes of one character. -/
def utf8EncodeChar (c : Char) : List Nat :=
  let n := c.toNat
  if n < 128 then [n]
  else if n < 2048 then [192 + n / 64, 128 + n % 64]
  else if n < 65536 then [224 + n / 4096, 128 + n / 64 % 64, 128 + n % 64]
  else [240 + n / 262144, 128 + n / 4096 % 64, 128 + n / 64 % 64, 128 + n % 64]

/-- UTF-8 bytes of a string. -/
def utf8Encode (s : String) : List Nat :=
  (s.toList.map utf8EncodeChar).flatten

/-! #### JSON serialization of the model definition

Modelled from the spec: the JSON writer of CInferenceModelDefinition is
not in the source tree; the document shape follows spec section 6:
preprocessors, then trained_model with the ensemble, its aggregate output,
target type and optional classification labels and weights. -/

/-- A JSON string literal with quote and backslash escaping. -/
def jsonStringValue (s : String) : String :=
  "\x22" ++ String.join (s.toList.map (fun c =>
    if c = '\x22' then "\\\x22" else if c = '\\' then "\\\\"
    else String.singleton c)) ++ "\x22"

/-- A JSON object from rendered key-value members. -/
def jsonObject (members : List String) : String :=
  "\x7b" ++ String.intercalate "," members ++ "\x7d"

/-- A JSON array from rendered elements. -/
def jsonArray (elems : List String) : String :=
  "[" ++ String.intercalate "," elems ++ "]"

/-- One rendered member. -/
def jsonMember (key value : String) : String :=
  jsonStringValue key ++ ":" ++ value

/-- A rational rendered as a JSON number token (numerator and denominator,
standing in for the double formatting of the writer). -/
def jsonNumber (q : Rat) : String :=
  if q.den = 1 then toString q.num else toString q.num ++ "/" ++ toString q.den

/-- JSON for one tree node. -/
def treeNodeJson (n : CTreeNode) : String :=
  jsonObject
    ([jsonMember "split_feature" (toString n.splitFeature),
      jsonMember "threshold" (jsonNumber n.splitValue),
      jsonMember "default_left" (if n.assignMissingToLeft then "true" else "false"),
      jsonMember "leaf_value" (jsonArray (n.nodeValue.map jsonNumber)),
      jsonMember "split_gain" (jsonNumber n.gain),
      jsonMember "number_samples" (toString n.numberSamples)]
      ++ (match n.leftChild with
          | some c => [jsonMember "left_child" (toString c)]
          | none => [])
      ++ (match n.rightChild with
          | some c => [jsonMember "right_child" (toString c)]
          | none => []))

/-- JSON for one preprocessor. -/
def encodingJson : CEncoding → String
  | .oneHot e =>
    jsonObject [jsonMember "one_hot_encoding" (jsonObject
      [jsonMember "field" (jsonStringValue e.field),
       jsonMember "hot_map" (jsonObject
         (e.hotMap.map (fun p => jsonMember p.1 (jsonStringValue p.2))))])]
  | .frequency e =>
    jsonObject [jsonMember "frequency_encoding" (jsonObject
      [jsonMember "field" (jsonStringValue e.field),
       jsonMember "feature_name" (jsonStringValue e.featureName),
       jsonMember "frequency_map" (jsonObject
         (e.frequencyMap.map (fun p => jsonMember p.1 (jsonNumber p.2))))])]
  | .targetMean e =>
    jsonObject [jsonMember "target_mean_encoding" (jsonObject
      [jsonMember "field" (jsonStringValue e.field),
       jsonMember "feature_name" (jsonStringValue e.featureName),
       jsonMember "target_map" (jsonObject
         (e.targetMap.map (fun p => jsonMember p.1 (jsonNumber p.2)))),
       jsonMember "default_value" (jsonNumber e.defaultValue)])]
  | .custom v => v

/-- JSON for the trained ensemble. -/
def ensembleJson (e : CEnsemble) : String :=
  jsonObject [jsonMember "ensemble" (jsonObject
    ([jsonMember "feature_names" (jsonArray (e.featureNames.map jsonStringValue)),
      jsonMember "trained_models"
        (jsonArray (e.trainedModels.map (fun t => jsonArray (t.map treeNodeJson)))),
      jsonMember "aggregate_output"
        (jsonObject [jsonMember e.aggregateOutput.stringType (jsonObject [])]),
      jsonMember "target_type"
        (jsonStringValue (match e.targetType with
          | .regression => "regression"
          | .classification => "classification"))]
      ++ (match e.classificationLabels with
          | some ls => [jsonMember "classification_labels"
              (jsonArray (ls.map jsonStringValue))]
          | none => [])
      ++ (match e.classificationWeights with
          | some ws => [jsonMember "classification_weights"
              (jsonArray (ws.map jsonNumber))]
          | none => [])))]

/-- jsonString(): the uncompressed JSON document of the model definition. -/
def jsonString (d : CInferenceModelDefinition) : String :=
  jsonObject
    [jsonMember "preprocessors" (jsonArray (d.preprocessors.map encodingJson)),
     jsonMember "trained_model" (ensembleJson d.trainedModel)]

/-- jsonCompressedStream(): the base64-rendered gzip stream of the UTF-8
bytes of the JSON document. -/
def jsonCompressedStream (d : CInferenceModelDefinition) : List Char :=
  base64Encode (gzipCompress (utf8Encode (jsonString d)))

/-- The test helper decompressStream: base64-decode then gunzip, yielding
the raw bytes. -/
def decompressStream (s : List Char) : Option (List Nat) :=
  (base64Decode s).bind gzipDecompress

/-! ### Theorems for the claims -/

/-- Claim C1: for every regression inference-model builder, the
aggregation function of the built ensemble is determined solely by the
loss-function kind passed to addLossFunction: a mean-squared-error family
loss yields aggregation weighted_sum and a mean-squared-log-error loss
yields aggregation exponent. -/
theorem regression_aggregation_determined_by_loss
    (st st2 : CBoostedTreeInferenceModelBuilder) (l : ELossType) :
    (regressionBuild st .msleRegression).trainedModel.aggregateOutput.stringType =
      "exponent" ∧
    (l.isMseFamily →
      (regressionBuild st l).trainedModel.aggregateOutput.stringType =
        "weighted_sum") ∧
    (regressionBuild st l).trainedModel.aggregateOutput =
      (regressionBuild st2 l).trainedModel.aggregateOutput := by
  refine ⟨rfl, ?_, rfl⟩
  intro h
  cases l
  · rfl
  · exact absurd h (by simp [ELossType.isMseFamily])
  · rfl

/-- Witness for the claim C1 theorem at concrete builders and losses. -/
theorem regression_aggregation_determined_by_loss_witness :
    (regressionBuild (mkBuilder ["numeric_col", "target_col"] 1 [[], []])
        .mseRegression).trainedModel.aggregateOutput.stringType = "weighted_sum" ∧
    (regressionBuild (mkBuilder ["numeric_col", "target_col"] 1 [[], []])
        .msleRegression).trainedModel.aggregateOutput.stringType = "exponent" :=
  ⟨(regression_aggregation_determined_by_loss
      (mkBuilder ["numeric_col", "target_col"] 1 [[], []])
      (mkBuilder ["numeric_col", "target_col"] 1 [[], []]) .mseRegression).2.1
      (by simp [ELossType.isMseFamily]),
   (regression_aggregation_determined_by_loss
      (mkBuilder ["numeric_col", "target_col"] 1 [[], []])
      (mkBuilder ["numeric_col", "target_col"] 1 [[], []]) .mseRegression).1⟩

/-- Claim C2: for every classification inference-model builder, the built
trained model has target type Classification and aggregation
logistic_regression, its classification labels are present and ordered
identically to the category names supplied for the dependent-variable
column, and for every predicted row the reported score equals the
classification weight of the reported label times the reported
probability. -/
theorem classification_build_model
    (st : CBoostedTreeInferenceModelBuilder) (weights probabilities : List Rat) :
    (classificationBuild st weights).trainedModel.targetType = .classification ∧
    (classificationBuild st weights).trainedModel.aggregateOutput.stringType =
      "logistic_regression" ∧
    (classificationBuild st weights).trainedModel.classificationLabels =
      some (st.categoryNames.getD st.dependentVariableColumnIndex []) ∧
    (writeRowPrediction weights probabilities).score =
      weights.getD (writeRowPrediction weights probabilities).labelIndex 0 *
        (writeRowPrediction weights probabilities).probability :=
  ⟨rfl, rfl, rfl, rfl⟩

/-- Claim C9: for every inference-model builder, addIdentityEncoding
registers a feature name but adds no preprocessor entry to the built
model definition; one identity encoding plus three one-hot registrations
over two columns and two frequency registrations yield exactly 4
preprocessors (the testEncoders scenario). -/
theorem identity_encoding_registers_name_only
    (st : CBoostedTreeInferenceModelBuilder) (col : Nat) :
    (applyOp st (.addIdentityEncoding col)).featureNames =
      st.featureNames ++ [fieldNameOf st col] ∧
    definitionPreprocessors (applyOp st (.addIdentityEncoding col)) =
      definitionPreprocessors st ∧
    (definitionPreprocessors (applyOps (mkBuilder ["col1", "target", "col2", "col3"] 1
        [[], ["targetcat1", "targetcat2"], ["col2cat1", "col2cat2", "col2cat3"],
         ["col3cat1", "col3cat2"]])
        [.addIdentityEncoding 0, .addOneHotEncoding 2 0, .addOneHotEncoding 2 1,
         .addFrequencyEncoding 2 [1, 1, 1], .addOneHotEncoding 3 0,
         .addFrequencyEncoding 3 [1, 1]])).length = 4 :=
  ⟨rfl, rfl, by rfl⟩

/-- Claim C10: for every CNdJsonOutputWriter and every pair of field-name
vectors, the two-argument fieldNames overload returns true and leaves the
writer's observable output state unchanged. -/
theorem ndjson_fieldNames_overload_noop (w : CNdJsonOutputWriter)
    (fieldNames extraFieldNames : List String) :
    writerFieldNames w fieldNames extraFieldNames = (true, w) ∧
    (writerFieldNames w fieldNames extraFieldNames).2.internalString =
      w.internalString :=
  ⟨rfl, rfl⟩

/-- A non-task-starting instrumentation call never decreases the scaled
progress accumulator. -/
theorem applyInstrOp_fractionalProgress_le (st : CDataFrameAnalysisInstrumentation)
    (op : InstrumentationOp) (h : op.isStartTask = false) :
    st.fractionalProgress ≤ (applyInstrOp st op).fractionalProgress := by
  cases op with
  | updateProgress f => exact Nat.le_add_right _ _
  | startNewProgressMonitoredTask t => simp [InstrumentationOp.isStartTask] at h
  | updateMemoryUsage d => exact le_rfl
  | setToFinished => exact le_rfl

/-- progress() is monotone in the scaled accumulator. -/
theorem progress_le_of_fractionalProgress_le
    {a b : CDataFrameAnalysisInstrumentation}
    (h : a.fractionalProgress ≤ b.fractionalProgress) : progress a ≤ progress b := by
  unfold progress
  have hm : ((min a.fractionalProgress 1024 : Nat) : Rat) ≤
      ((min b.fractionalProgress 1024 : Nat) : Rat) := by
    have : min a.fractionalProgress 1024 ≤ min b.fractionalProgress 1024 := by omega
    exact_mod_cast this
  have h1024 : (0 : Rat) < 1024 := by norm_num
  exact (div_le_div_iff_of_pos_right h1024).mpr hm

/-- Claim C5 counterexample: the final flush after setToFinished() does
not report progress greater than or equal to every value observed mid-run:
after observing full progress of a first task, starting a new task resets
progress to zero, and the final flush then reports zero. -/
theorem final_flush_not_ge_every_observed_progress :
    ¬ ((flush (applyInstrOps (mkInstrumentation "job" 1000)
          [.updateProgress 1, .startNewProgressMonitoredTask "t2",
           .setToFinished])).progress ≥
        progress (applyInstrOps (mkInstrumentation "job" 1000)
          [.updateProgress 1])) := by
  have h1 : progress (applyInstrOps (mkInstrumentation "job" 1000)
      [.updateProgress 1]) = 1 := by
    simp [applyInstrOps, applyInstrOp, mkInstrumentation, progress]
    norm_num [show Int.toNat 1024 = 1024 from rfl]
  have h2 : (flush (applyInstrOps (mkInstrumentation "job" 1000)
      [.updateProgress 1, .startNewProgressMonitoredTask "t2",
       .setToFinished])).progress = 0 := by
    simp [applyInstrOps, applyInstrOp, mkInstrumentation, progress, flush]
  rw [ge_iff_le, h1, h2]
  norm_num

/-- Claim C5 as amended: progress is monotonically non-decreasing along
any sequence of calls containing no startNewProgressMonitoredTask, equals
exactly 0 immediately after each startNewProgressMonitoredTask call, and
the final flush after setToFinished() reports progress greater than or
equal to the last value observed mid-run. -/
theorem progress_monotone_within_task
    (st : CDataFrameAnalysisInstrumentation) (ops : List InstrumentationOp)
    (h : ∀ op ∈ ops, op.isStartTask = false) (t : String) :
    progress st ≤ progress (applyInstrOps st ops) ∧
    progress (applyInstrOp st (.startNewProgressMonitoredTask t)) = 0 ∧
    progress st ≤ (flush (applyInstrOp st .setToFinished)).progress := by
  refine ⟨?_, ?_, le_of_eq rfl⟩
  · induction ops generalizing st with
    | nil => exact le_rfl
    | cons op rest ih =>
        have h1 := applyInstrOp_fractionalProgress_le st op (h op (by simp))
        have h2 := ih (applyInstrOp st op) (fun o ho => h o (by simp [ho]))
        exact le_trans (progress_le_of_fractionalProgress_le h1) h2
  · simp [applyInstrOp, progress]

/-- Witness for the amended claim C5 theorem on a concrete trace. -/
theorem progress_monotone_within_task_witness :
    progress (mkInstrumentation "job" 100) ≤
      progress (applyInstrOps (mkInstrumentation "job" 100)
        [.updateProgress (1/2), .updateMemoryUsage 5, .setToFinished]) ∧
    progress (applyInstrOp (mkInstrumentation "job" 100)
      (.startNewProgressMonitoredTask "t")) = 0 ∧
    progress (mkInstrumentation "job" 100) ≤
      (flush (applyInstrOp (mkInstrumentation "job" 100) .setToFinished)).progress :=
  progress_monotone_within_task (mkInstrumentation "job" 100)
    [.updateProgress (1/2), .updateMemoryUsage 5, .setToFinished]
    (by intro op hop; fin_cases hop <;> rfl) "t"

/-- Any instrumentation call preserves a raised finished flag. -/
theorem applyInstrOp_finished_preserved (st : CDataFrameAnalysisInstrumentation)
    (op : InstrumentationOp) (h : st.finished = true) :
    (applyInstrOp st op).finished = true := by
  cases op <;> simp [applyInstrOp, h]

/-- The least-index characterization of the monitor loop. -/
theorem monitorRun_spec (states : List CDataFrameAnalysisInstrumentation)
    (i : Nat) (r : SFlushRecord) (hmon : monitorRun states = some (i, r)) :
    (states.getD i (mkInstrumentation "" 0)).finished = true ∧
    (∀ j, j < i → (states.getD j (mkInstrumentation "" 0)).finished = false) ∧
    r = flush (states.getD i (mkInstrumentation "" 0)) := by
  induction states generalizing i r with
  | nil => simp [monitorRun] at hmon
  | cons s rest ih =>
    by_cases hf : s.finished
    · simp only [monitorRun, if_pos hf, Option.some.injEq, Prod.mk.injEq] at hmon
      obtain ⟨hi, hr⟩ := hmon
      subst hi
      refine ⟨by simpa [List.getD] using hf, by omega, by simp [List.getD, hr.symm]⟩
    · simp only [monitorRun, if_neg hf, Option.map_eq_some'] at hmon
      obtain ⟨⟨a, b⟩, hab, hpair⟩ := hmon
      obtain ⟨ha, hb⟩ := Prod.mk.injEq .. ▸ hpair
      obtain ⟨h1, h2, h3⟩ := ih a b hab
      subst ha hb
      refine ⟨by simpa [List.getD] using h1, ?_, by simpa [List.getD] using h3⟩
      intro j hj
      cases j with
      | zero => simpa [List.getD] using Bool.eq_false_iff.mpr hf
      | succ k => simpa [List.getD] using h2 k (by omega)

/-- Claim C6: the finished flag is a one-way transition: construction
starts unfinished, setToFinished raises the flag, no modelled operation
lowers it again; and the static monitor loop returns exactly at the first
poll at which finished() is true, performing the final flush of that
completed state. -/
theorem finished_one_way_and_monitor_returns
    (st : CDataFrameAnalysisInstrumentation) (ops : List InstrumentationOp)
    (jobId : String) (memoryLimit : Nat)
    (states : List CDataFrameAnalysisInstrumentation) (i : Nat) (r : SFlushRecord)
    (hmon : monitorRun states = some (i, r)) :
    (mkInstrumentation jobId memoryLimit).finished = false ∧
    (applyInstrOp st .setToFinished).finished = true ∧
    (applyInstrOps (applyInstrOp st .setToFinished) ops).finished = true ∧
    (states.getD i (mkInstrumentation "" 0)).finished = true ∧
    (∀ j, j < i → (states.getD j (mkInstrumentation "" 0)).finished = false) ∧
    r = flush (states.getD i (mkInstrumentation "" 0)) := by
  obtain ⟨h1, h2, h3⟩ := monitorRun_spec states i r hmon
  refine ⟨rfl, rfl, ?_, h1, h2, h3⟩
  have : ∀ (l : List InstrumentationOp) (s : CDataFrameAnalysisInstrumentation),
      s.finished = true → (applyInstrOps s l).finished = true := by
    intro l
    induction l with
    | nil => intro s hs; exact hs
    | cons op rest ihl =>
        intro s hs
        exact ihl (applyInstrOp s op) (applyInstrOp_finished_preserved s op hs)
  exact this ops _ rfl

/-- A concrete unfinished-then-finished poll sequence. -/
def witInstr0 : CDataFrameAnalysisInstrumentation :=
  mkInstrumentation "job" 1000

/-- The finished second poll of the concrete sequence. -/
def witInstr1 : CDataFrameAnalysisInstrumentation :=
  applyInstrOp witInstr0 .setToFinished

/-- Witness for the claim C6 theorem on the concrete poll sequence. -/
theorem finished_one_way_and_monitor_returns_witness :
    (mkInstrumentation "job" 1000).finished = false ∧
    (applyInstrOp witInstr0 .setToFinished).finished = true ∧
    (applyInstrOps (applyInstrOp witInstr0 .setToFinished)
      [.updateProgress 1]).finished = true ∧
    ([witInstr0, witInstr1].getD 1 (mkInstrumentation "" 0)).finished = true ∧
    ([witInstr0, witInstr1].getD 0 (mkInstrumentation "" 0)).finished = false ∧
    flush witInstr1 = flush ([witInstr0, witInstr1].getD 1 (mkInstrumentation "" 0)) := by
  have T := finished_one_way_and_monitor_returns witInstr0 [.updateProgress 1]
      "job" 1000 [witInstr0, witInstr1] 1 (flush witInstr1) rfl
  exact ⟨T.1, T.2.1, T.2.2.1, T.2.2.2.1, T.2.2.2.2.1 0 (by norm_num), T.2.2.2.2.2⟩

/-- Inversion of a successful numeric-constraint read. -/
theorem parsePositive_some {o : Option Int} {v : Nat} (h : parsePositive o = some v) :
    ∃ n, o = some n ∧ 0 < n := by
  cases o with
  | none => simp [parsePositive] at h
  | some n =>
    by_cases hn : 0 < n
    · exact ⟨n, rfl, hn⟩
    · simp [parsePositive, hn] at h

/-- A specification can only construct good when every required field is
present, every numeric constraint is positive, and the analysis name is
registered. -/
theorem parseSpecification_good_inversion (runnerNames : List String)
    (j : SSpecificationJson) (s : SParsedSpecification)
    (h : parseSpecification runnerNames j = .good s) :
    (∃ n, j.rows = some n ∧ 0 < n) ∧ (∃ n, j.cols = some n ∧ 0 < n) ∧
    (∃ n, j.memoryLimit = some n ∧ 0 < n) ∧ (∃ n, j.threads = some n ∧ 0 < n) ∧
    (∃ name, j.analysisName = some name ∧ runnerNames.contains name = true) := by
  unfold parseSpecification at h
  cases hr : parsePositive j.rows <;> rw [hr] at h
  case none => simp at h
  case some r =>
  cases hc : parsePositive j.cols <;> rw [hc] at h
  case none => simp at h
  case some c =>
  cases hm : parsePositive j.memoryLimit <;> rw [hm] at h
  case none => simp at h
  case some m =>
  cases ht : parsePositive j.threads <;> rw [ht] at h
  case none => simp at h
  case some t =>
  cases hn : j.analysisName <;> rw [hn] at h
  case none => simp at h
  case some name =>
  by_cases hcont : name ∈ runnerNames
  · exact ⟨parsePositive_some hr, parsePositive_some hc, parsePositive_some hm,
      parsePositive_some ht, ⟨name, rfl, by simpa using hcont⟩⟩
  · simp [hcont] at h

/-- Claim C7: for every input specification in which a required field is
missing, a numeric constraint is non-positive, or the analysis name
matches no registered factory, construction yields the bad state (no
exception: construction is a total function), the runner obtained from it
immediately reports failure, and asking it to run reports failure rather
than starting the analysis. -/
theorem invalid_specification_fails_safely (runnerNames : List String)
    (j : SSpecificationJson)
    (h : missingRequiredField j ∨ nonPositiveConstraint j ∨
      unknownAnalysisName runnerNames j) :
    parseSpecification runnerNames j = .bad ∧
    runnerOf (parseSpecification runnerNames j) = .immediateFailure ∧
    runRunner (runnerOf (parseSpecification runnerNames j)) = .failureReported := by
  have hbad : parseSpecification runnerNames j = .bad := by
    cases hp : parseSpecification runnerNames j with
    | bad => rfl
    | good s =>
      exfalso
      obtain ⟨⟨r, hr, hrpos⟩, ⟨c, hc, hcpos⟩, ⟨m, hm, hmpos⟩, ⟨t, ht, htpos⟩,
          ⟨nm, hnm, hcont⟩⟩ := parseSpecification_good_inversion runnerNames j s hp
      rcases h with (h | h | h | h | h) |
          (⟨n, hn, hnp⟩ | ⟨n, hn, hnp⟩ | ⟨n, hn, hnp⟩ | ⟨n, hn, hnp⟩) | h
      · rw [h] at hr; exact Option.noConfusion hr
      · rw [h] at hc; exact Option.noConfusion hc
      · rw [h] at hm; exact Option.noConfusion hm
      · rw [h] at ht; exact Option.noConfusion ht
      · rw [h] at hnm; exact Option.noConfusion hnm
      · rw [hn] at hr; obtain rfl := Option.some.injEq .. ▸ hr; omega
      · rw [hn] at hc; obtain rfl := Option.some.injEq .. ▸ hc; omega
      · rw [hn] at hm; obtain rfl := Option.some.injEq .. ▸ hm; omega
      · rw [hn] at ht; obtain rfl := Option.some.injEq .. ▸ ht; omega
      · rw [h nm hnm] at hcont; exact Bool.noConfusion hcont
  exact ⟨hbad, by rw [hbad]; rfl, by rw [hbad]; rfl⟩


/-- A concrete invalid specification: zero rows. -/
def witSpecJson : SSpecificationJson :=
  { jobId := some "job"
    rows := some 0
    cols := some 2
    memoryLimit := some 100000
    threads := some 1
    temporaryDirectory := none
    resultsField := some "ml"
    missingFieldValue := none
    categoricalFieldNames := some []
    diskUsageAllowed := some false
    analysisName := some "regression" }

/-- Witness for the claim C7 theorem on the zero-rows specification. -/
theorem invalid_specification_fails_safely_witness :
    parseSpecification ["regression"] witSpecJson = .bad ∧
    runnerOf (parseSpecification ["regression"] witSpecJson) = .immediateFailure ∧
    runRunner (runnerOf (parseSpecification ["regression"] witSpecJson)) =
      .failureReported :=
  invalid_specification_fails_safely ["regression"] witSpecJson
    (Or.inr (Or.inl (Or.inl ⟨0, rfl, le_refl 0⟩)))

/-- Claim C8: for every specification whose memory limit is smaller than
the minimal single-partition bookkeeping cost and whose disk-usage flag is
false, computing the execution strategy yields the fatal infeasible-budget
failure state before any row is processed, and the job never reaches the
running state. -/
theorem infeasible_memory_budget_is_fatal (memoryLimit : Nat)
    (memoryUsageWithPartitions : Nat → Nat) (numberRows numberThreads : Nat)
    (h : memoryLimit < memoryUsageWithPartitions 1) :
    setupJob memoryLimit false memoryUsageWithPartitions numberRows numberThreads =
      .failed .infeasibleMemoryBudget ∧
    (∀ n s, startJob^[n] (setupJob memoryLimit false memoryUsageWithPartitions
        numberRows numberThreads) ≠ .running s) := by
  have hfind : computeExecutionStrategy memoryLimit false memoryUsageWithPartitions
      numberRows numberThreads = .error .infeasibleMemoryBudget := by
    simp [computeExecutionStrategy, List.find?, Nat.not_le.mpr h]
  have hsetup : setupJob memoryLimit false memoryUsageWithPartitions
      numberRows numberThreads = .failed .infeasibleMemoryBudget := by
    simp [setupJob, hfind]
  refine ⟨hsetup, ?_⟩
  intro n s
  rw [hsetup, Function.iterate_fixed (f := startJob) rfl]
  simp

/-- Witness for the claim C8 theorem on a concrete infeasible budget. -/
theorem infeasible_memory_budget_is_fatal_witness :
    setupJob 10 false (fun _ => 100) 1000 4 = .failed .infeasibleMemoryBudget ∧
    startJob^[3] (setupJob 10 false (fun _ => 100) 1000 4) ≠ .running ⟨1, 4⟩ := by
  have T := infeasible_memory_budget_is_fatal 10 (fun _ => 100) 1000 4 (by norm_num)
  exact ⟨T.1, T.2 3 ⟨1, 4⟩⟩

/-! ### The one-hot accumulation property (claim C3) -/

/-- The hot-map entries accumulated for a column key (first match). -/
def oneHotLookup : List (String × List (String × String)) → String → List (String × String)
  | [], _ => []
  | (g, m) :: rest, f => if g = f then m else oneHotLookup rest f

/-- The hot categories registered for column name f by a sequence of
visitor calls, in registration order. -/
def registeredHotCategories (fieldNames : List String)
    (categoryNames : List (List String)) (ops : List BuilderOp) (f : String) :
    List String :=
  ops.filterMap (fun op => match op with
    | .addOneHotEncoding col cat =>
        if fieldNames.getD col "" = f
        then some ((categoryNames.getD col []).getD cat "") else none
    | _ => none)

/-- Inserting appends to the entries of the inserted key and leaves other
keys unchanged. -/
theorem oneHotLookup_insert (mm : List (String × List (String × String)))
    (f g : String) (e : String × String) :
    oneHotLookup (oneHotInsert mm f e) g =
      if g = f then oneHotLookup mm g ++ [e] else oneHotLookup mm g := by
  induction mm with
  | nil =>
      by_cases hgf : g = f
      · subst hgf; simp [oneHotInsert, oneHotLookup]
      · have hfg : ¬ f = g := fun h => hgf h.symm
        simp [oneHotInsert, oneHotLookup, hgf, hfg]
  | cons p rest ih =>
      obtain ⟨k, m⟩ := p
      by_cases hkf : k = f
      · subst hkf
        by_cases hgk : g = k
        · subst hgk; simp [oneHotInsert, oneHotLookup]
        · have hkg : ¬ k = g := fun h => hgk h.symm
          simp [oneHotInsert, oneHotLookup, hgk, hkg]
      · by_cases hkg : k = g
        · subst hkg
          have hgf : ¬ k = f := hkf
          simp [oneHotInsert, oneHotLookup, hkf, hgf]
        · simp [oneHotInsert, oneHotLookup, hkf, hkg, ih]

/-- The keys after an insert: unchanged when the key is present, appended
at the end otherwise. -/
theorem oneHotInsert_keys (mm : List (String × List (String × String)))
    (f : String) (e : String × String) :
    (oneHotInsert mm f e).map Prod.fst =
      if f ∈ mm.map Prod.fst then mm.map Prod.fst
      else mm.map Prod.fst ++ [f] := by
  induction mm with
  | nil => simp [oneHotInsert]
  | cons p rest ih =>
      obtain ⟨k, m⟩ := p
      by_cases hkf : k = f
      · subst hkf; simp [oneHotInsert]
      · have hfk : ¬ f = k := fun h => hkf h.symm
        simp only [oneHotInsert, if_neg hkf, List.map_cons, ih, List.mem_cons,
          hfk, false_or]
        split <;> simp

/-- Well-formedness of the accumulation map: distinct keys and nonempty
entry lists. -/
def oneHotKeysOk (mm : List (String × List (String × String))) : Prop :=
  (mm.map Prod.fst).Nodup ∧ ∀ p ∈ mm, p.2 ≠ []

/-- Inserting preserves nonemptiness of every entry list. -/
theorem oneHotInsert_entries_ne_nil (mm : List (String × List (String × String)))
    (f : String) (e : String × String) (h : ∀ p ∈ mm, p.2 ≠ []) :
    ∀ p ∈ oneHotInsert mm f e, p.2 ≠ [] := by
  induction mm with
  | nil =>
      intro p hp
      simp only [oneHotInsert, List.mem_singleton] at hp
      subst hp; simp
  | cons q rest ih =>
      obtain ⟨k, m⟩ := q
      have hrest : ∀ r ∈ rest, r.2 ≠ [] := fun r hr => h r (List.mem_cons_of_mem _ hr)
      intro p hp
      simp only [oneHotInsert] at hp
      by_cases hkf : k = f
      · rw [if_pos hkf] at hp
        rcases List.mem_cons.mp hp with hp | hp
        · subst hp; simp
        · exact hrest p hp
      · rw [if_neg hkf] at hp
        rcases List.mem_cons.mp hp with hp | hp
        · subst hp; exact h (k, m) (List.mem_cons_self _ _)
        · exact ih hrest p hp

/-- Inserting preserves well-formedness of the accumulation map. -/
theorem oneHotInsert_keysOk (mm : List (String × List (String × String)))
    (f : String) (e : String × String) (h : oneHotKeysOk mm) :
    oneHotKeysOk (oneHotInsert mm f e) := by
  obtain ⟨hnd, hne⟩ := h
  refine ⟨?_, oneHotInsert_entries_ne_nil mm f e hne⟩
  rw [oneHotInsert_keys]
  by_cases hmem : f ∈ mm.map Prod.fst
  · rw [if_pos hmem]; exact hnd
  · rw [if_neg hmem]
    simp [List.nodup_append, hnd, hmem]

/-- On a well-formed map, filtering by key equals the singleton of the
looked-up entry list when it is nonempty, and nothing otherwise. -/
theorem oneHotFilter_of_keysOk (mm : List (String × List (String × String)))
    (h : oneHotKeysOk mm) (f : String) :
    mm.filter (fun p => p.1 = f) =
      if oneHotLookup mm f = [] then [] else [(f, oneHotLookup mm f)] := by
  induction mm with
  | nil => simp [oneHotLookup]
  | cons p rest ih =>
      obtain ⟨k, m⟩ := p
      obtain ⟨hnd, hne⟩ := h
      have hndr : oneHotKeysOk rest :=
        ⟨(List.nodup_cons.mp hnd).2, fun q hq => hne q (by simp [hq])⟩
      by_cases hkf : k = f
      · subst hkf
        have hknotin : k ∉ rest.map Prod.fst := (List.nodup_cons.mp hnd).1
        have hfilter : rest.filter (fun p => p.1 = k) = [] := by
          rw [List.filter_eq_nil_iff]
          intro q hq
          simp only [decide_eq_true_eq]
          intro hq1
          exact hknotin (hq1 ▸ List.mem_map_of_mem Prod.fst hq)
        have hm : m ≠ [] := hne (k, m) (by simp)
        simp [oneHotLookup, List.filter_cons, hfilter, hm]
      · have hfk : ¬ f = k := fun hh => hkf hh.symm
        simp [oneHotLookup, List.filter_cons, hkf, hfk, ih hndr]

/-- Visitor calls never change the constructor-supplied field names. -/
theorem applyOps_fieldNames (st : CBoostedTreeInferenceModelBuilder)
    (ops : List BuilderOp) : (applyOps st ops).fieldNames = st.fieldNames := by
  induction ops generalizing st with
  | nil => rfl
  | cons op rest ih =>
      show (applyOps (applyOp st op) rest).fieldNames = st.fieldNames
      rw [ih]
      cases op <;> rfl

/-- Visitor calls never change the constructor-supplied category names. -/
theorem applyOps_categoryNames (st : CBoostedTreeInferenceModelBuilder)
    (ops : List BuilderOp) : (applyOps st ops).categoryNames = st.categoryNames := by
  induction ops generalizing st with
  | nil => rfl
  | cons op rest ih =>
      show (applyOps (applyOp st op) rest).categoryNames = st.categoryNames
      rw [ih]
      cases op <;> rfl

/-- The accumulated hot map of a column holds exactly the registered hot
categories paired with their generated feature names, in registration
order. -/
theorem applyOps_oneHotLookup (fn : List String) (d : Nat)
    (cn : List (List String)) (ops : List BuilderOp) (f : String) :
    oneHotLookup (applyOps (mkBuilder fn d cn) ops).oneHotEncodingMaps f =
      (registeredHotCategories fn cn ops f).map (fun c => (c, f ++ "_" ++ c)) := by
  induction ops using List.reverseRecOn with
  | nil => rfl
  | append_singleton ops op ih =>
      have happly : applyOps (mkBuilder fn d cn) (ops ++ [op]) =
          applyOp (applyOps (mkBuilder fn d cn) ops) op := by
        simp [applyOps, List.foldl_append]
      have hreg : registeredHotCategories fn cn (ops ++ [op]) f =
          registeredHotCategories fn cn ops f ++
            registeredHotCategories fn cn [op] f := by
        simp [registeredHotCategories, List.filterMap_append]
      rw [happly, hreg]
      set st := applyOps (mkBuilder fn d cn) ops with hst
      have hfn : st.fieldNames = fn := applyOps_fieldNames _ _
      have hcn : st.categoryNames = cn := applyOps_categoryNames _ _
      cases op with
      | addOneHotEncoding col cat =>
          show oneHotLookup (oneHotInsert st.oneHotEncodingMaps (fieldNameOf st col)
            (categoryNameOf st col cat,
             fieldNameOf st col ++ "_" ++ categoryNameOf st col cat)) f = _
          rw [oneHotLookup_insert]
          have hkey : fieldNameOf st col = fn.getD col "" := by
            rw [fieldNameOf, hfn]
          have hcat : categoryNameOf st col cat = (cn.getD col []).getD cat "" := by
            rw [categoryNameOf, hcn]
          by_cases hf : fn.getD col "" = f
          · rw [if_pos (by rw [hkey, hf]), ih]
            have hf2 : fn[col]?.getD "" = f := by
              simpa [List.getD_eq_getElem?_getD] using hf
            have hcat2 : categoryNameOf st col cat = (cn[col]?.getD [])[cat]?.getD "" := by
              simpa [List.getD_eq_getElem?_getD] using hcat
            have hkey2 : fieldNameOf st col = fn[col]?.getD "" := by
              simpa [List.getD_eq_getElem?_getD] using hkey
            simp [registeredHotCategories, List.filterMap_cons, hf2, hcat2, hkey2]
          · rw [if_neg (by rw [hkey]; exact fun hh => hf hh.symm), ih]
            have hf2 : ¬ fn[col]?.getD "" = f := by
              simpa [List.getD_eq_getElem?_getD] using hf
            simp [registeredHotCategories, List.filterMap_cons, hf2]
      | addTree => simpa [registeredHotCategories, applyOp] using ih
      | addNode sf sv ml nv g ns lc rc =>
          simpa [registeredHotCategories, applyOp] using ih
      | addIdentityEncoding col =>
          simpa [registeredHotCategories, applyOp] using ih
      | addTargetMeanEncoding col map fallback =>
          simpa [registeredHotCategories, applyOp] using ih
      | addFrequencyEncoding col map =>
          simpa [registeredHotCategories, applyOp] using ih
      | addCustomProcessor v =>
          simpa [registeredHotCategories, applyOp] using ih

/-- The accumulation map of every reachable builder state is well-formed. -/
theorem applyOps_oneHotKeysOk (fn : List String) (d : Nat)
    (cn : List (List String)) (ops : List BuilderOp) :
    oneHotKeysOk (applyOps (mkBuilder fn d cn) ops).oneHotEncodingMaps := by
  induction ops using List.reverseRecOn with
  | nil => exact ⟨List.nodup_nil, by simp [applyOps, mkBuilder]⟩
  | append_singleton ops op ih =>
      have happly : applyOps (mkBuilder fn d cn) (ops ++ [op]) =
          applyOp (applyOps (mkBuilder fn d cn) ops) op := by
        simp [applyOps, List.foldl_append]
      rw [happly]
      cases op with
      | addOneHotEncoding col cat => exact oneHotInsert_keysOk _ _ _ ih
      | addTree => exact ih
      | addNode sf sv ml nv g ns lc rc => exact ih
      | addIdentityEncoding col => exact ih
      | addTargetMeanEncoding col map fallback => exact ih
      | addFrequencyEncoding col map => exact ih
      | addCustomProcessor v => exact ih

/-- The directly appended preprocessors of a reachable builder state
contain no one-hot preprocessor. -/
theorem applyOps_direct_no_oneHot (fn : List String) (d : Nat)
    (cn : List (List String)) (ops : List BuilderOp) (f : String) :
    ∀ e ∈ (applyOps (mkBuilder fn d cn) ops).directPreprocessors,
      e.isOneHotFor f = false := by
  induction ops using List.reverseRecOn with
  | nil => simp [applyOps, mkBuilder]
  | append_singleton ops op ih =>
      have happly : applyOps (mkBuilder fn d cn) (ops ++ [op]) =
          applyOp (applyOps (mkBuilder fn d cn) ops) op := by
        simp [applyOps, List.foldl_append]
      rw [happly]
      cases op with
      | addTargetMeanEncoding col map fallback =>
          intro e he
          rcases List.mem_append.mp he with he | he
          · exact ih e he
          · simp at he; subst he; rfl
      | addFrequencyEncoding col map =>
          intro e he
          rcases List.mem_append.mp he with he | he
          · exact ih e he
          · simp at he; subst he; rfl
      | addTree => exact ih
      | addNode sf sv ml nv g ns lc rc => exact ih
      | addIdentityEncoding col => exact ih
      | addOneHotEncoding col cat => exact ih
      | addCustomProcessor v => exact ih

/-- Claim C3: for every column, all addOneHotEncoding calls for that
column accumulate into exactly one one-hot preprocessor of the built
model definition, whose map has one entry per registered hot category,
with deterministic feature names formed as the column name, an
underscore, and the category name. -/
theorem oneHot_accumulates_single_preprocessor (fn : List String) (d : Nat)
    (cn : List (List String)) (ops : List BuilderOp) (f : String) :
    (definitionPreprocessors (applyOps (mkBuilder fn d cn) ops)).filter
        (CEncoding.isOneHotFor f) =
      (if registeredHotCategories fn cn ops f = [] then []
       else [CEncoding.oneHot ⟨f, (registeredHotCategories fn cn ops f).map
              (fun c => (c, f ++ "_" ++ c))⟩]) := by
  set st := applyOps (mkBuilder fn d cn) ops with hst
  unfold definitionPreprocessors
  rw [List.filter_append, List.filter_append]
  have hdirect : st.directPreprocessors.filter (CEncoding.isOneHotFor f) = [] := by
    rw [List.filter_eq_nil_iff]
    intro e he
    simp [applyOps_direct_no_oneHot fn d cn ops f e he]
  have hcustom : (st.customProcessors.map CEncoding.custom).filter
      (CEncoding.isOneHotFor f) = [] := by
    rw [List.filter_eq_nil_iff]
    intro e he
    obtain ⟨v, hv, rfl⟩ := List.mem_map.mp he
    simp [CEncoding.isOneHotFor]
  have hmid : (st.oneHotEncodingMaps.map
        (fun p => CEncoding.oneHot ⟨p.1, p.2⟩)).filter (CEncoding.isOneHotFor f) =
      (st.oneHotEncodingMaps.filter (fun p => p.1 = f)).map
        (fun p => CEncoding.oneHot ⟨p.1, p.2⟩) := by
    rw [List.filter_map]
    rfl
  rw [hdirect, hcustom, hmid,
    oneHotFilter_of_keysOk _ (applyOps_oneHotKeysOk fn d cn ops) f,
    applyOps_oneHotLookup fn d cn ops f]
  by_cases hreg : registeredHotCategories fn cn ops f = []
  · simp [hreg]
  · rw [if_neg (by simpa using hreg), if_neg hreg]
    simp

/-! ### Round trip of the compressed stream (claim C4) -/

/-- Decoding inverts encoding on every sextet. -/
theorem base64DecodeChar_encodeChar :
    ∀ n, n < 64 → base64DecodeChar (base64EncodeChar n) = some n := by decide

/-- No sextet encodes to the padding character. -/
theorem base64EncodeChar_ne_pad : ∀ n, n < 64 → base64EncodeChar n ≠ '=' := by decide

/-- Base64 decoding inverts base64 encoding on byte lists. -/
theorem base64Decode_encode : ∀ (bs : List Nat), (∀ b ∈ bs, b < 256) →
    base64Decode (base64Encode bs) = some bs
  | [], _ => rfl
  | [b1], h => by
      have hb1 : b1 < 256 := h b1 (by simp)
      simp only [base64Encode, base64Decode]
      rw [base64DecodeChar_encodeChar _ (by omega),
        base64DecodeChar_encodeChar _ (by omega)]
      simp only [Option.some.injEq, List.cons.injEq, and_true, if_pos]
      simp
      omega
  | [b1, b2], h => by
      have hb1 : b1 < 256 := h b1 (by simp)
      have hb2 : b2 < 256 := h b2 (by simp)
      simp only [base64Encode, base64Decode]
      rw [base64DecodeChar_encodeChar _ (by omega),
        base64DecodeChar_encodeChar _ (by omega),
        base64DecodeChar_encodeChar _ (by omega)]
      have hne1 : base64EncodeChar (b2 % 16 * 4) ≠ '=' :=
        base64EncodeChar_ne_pad _ (by omega)
      simp [hne1]
      omega
  | b1 :: b2 :: b3 :: rest, h => by
      have hb1 : b1 < 256 := h b1 (by simp)
      have hb2 : b2 < 256 := h b2 (by simp)
      have hb3 : b3 < 256 := h b3 (by simp)
      have ih := base64Decode_encode rest (fun b hb => h b (by simp [hb]))
      simp only [base64Encode, base64Decode]
      rw [base64DecodeChar_encodeChar _ (by omega),
        base64DecodeChar_encodeChar _ (by omega),
        base64DecodeChar_encodeChar _ (by omega),
        base64DecodeChar_encodeChar _ (by omega)]
      have hne1 : base64EncodeChar (b2 % 16 * 4 + b3 / 64) ≠ '=' :=
        base64EncodeChar_ne_pad _ (by omega)
      have hne2 : base64EncodeChar (b3 % 64) ≠ '=' :=
        base64EncodeChar_ne_pad _ (by omega)
      simp [hne1, hne2, ih]
      omega

/-- Inflating inverts stored-mode deflation, leaving trailing input
untouched. -/
theorem inflateStored_deflateStored (bs : List Nat) (tail : List Nat) :
    inflateStored (deflateStored bs ++ tail) = some (bs, tail) := by
  by_cases h : bs.length ≤ 65535
  · rw [show deflateStored bs =
        1 :: (toLE2 bs.length ++ toLE2 (65535 - bs.length) ++ bs) from by
      rw [deflateStored, if_pos h]]
    simp only [toLE2, List.cons_append, List.append_assoc, List.nil_append]
    rw [inflateStored]
    have hlen : bs.length % 256 + 256 * (bs.length / 256 % 256) = bs.length := by
      omega
    have hnlen : (65535 - bs.length) % 256 +
        256 * ((65535 - bs.length) / 256 % 256) = 65535 - bs.length := by omega
    rw [hlen, hnlen]
    rw [if_pos ⟨rfl, by simp⟩]
    rw [if_pos rfl]
    rw [List.take_left, List.drop_left]
  · have ih := inflateStored_deflateStored (bs.drop 65535) tail
    have htk : (bs.take 65535).length = 65535 := by
      simp [List.length_take]
      omega
    rw [show deflateStored bs =
        0 :: (toLE2 65535 ++ toLE2 0 ++ bs.take 65535) ++
          deflateStored (bs.drop 65535) from by
      rw [deflateStored, if_neg h]]
    simp only [toLE2, List.cons_append, List.append_assoc, List.nil_append]
    rw [inflateStored]
    norm_num
    refine ⟨by omega, ?_⟩
    rw [List.drop_left' htk, List.take_left' htk, ih]
    simp [List.take_append_drop]
termination_by bs.length
decreasing_by simp [List.length_drop]; omega

/-- Little-endian bytes are bytes. -/
theorem toLE2_lt (n : Nat) : ∀ b ∈ toLE2 n, b < 256 := by
  simp [toLE2]
  omega

/-- Little-endian bytes are bytes. -/
theorem toLE4_lt (n : Nat) : ∀ b ∈ toLE4 n, b < 256 := by
  simp [toLE4]
  omega

/-- Stored-mode deflation of bytes yields bytes. -/
theorem deflateStored_lt (bs : List Nat) (h : ∀ b ∈ bs, b < 256) :
    ∀ b ∈ deflateStored bs, b < 256 := by
  by_cases hl : bs.length ≤ 65535
  · rw [show deflateStored bs =
        1 :: (toLE2 bs.length ++ toLE2 (65535 - bs.length) ++ bs) from by
      rw [deflateStored, if_pos hl]]
    intro b hb
    simp only [List.mem_cons, List.mem_append] at hb
    rcases hb with hb | (hb | hb) | hb
    · omega
    · exact toLE2_lt _ b hb
    · exact toLE2_lt _ b hb
    · exact h b hb
  · have ih := deflateStored_lt (bs.drop 65535) (fun b hb => h b (List.mem_of_mem_drop hb))
    rw [show deflateStored bs =
        0 :: (toLE2 65535 ++ toLE2 0 ++ bs.take 65535) ++
          deflateStored (bs.drop 65535) from by
      rw [deflateStored, if_neg hl]]
    intro b hb
    simp only [List.cons_append, List.mem_cons, List.mem_append] at hb
    rcases hb with hb | ((hb | hb) | hb) | hb
    · omega
    · exact toLE2_lt _ b hb
    · exact toLE2_lt _ b hb
    · exact h b (List.mem_of_mem_take hb)
    · exact ih b hb
termination_by bs.length
decreasing_by simp [List.length_drop]; omega

/-- Gzip compression of bytes yields bytes. -/
theorem gzipCompress_lt (bs : List Nat) (h : ∀ b ∈ bs, b < 256) :
    ∀ b ∈ gzipCompress bs, b < 256 := by
  intro b hb
  simp only [gzipCompress, List.mem_append] at hb
  rcases hb with ((hb | hb) | hb) | hb
  · simp [gzipHeader] at hb
    omega
  · exact deflateStored_lt bs h b hb
  · exact toLE4_lt _ b hb
  · exact toLE4_lt _ b hb

/-- Gzip decompression inverts gzip compression. -/
theorem gzipDecompress_compress (bs : List Nat) :
    gzipDecompress (gzipCompress bs) = some bs := by
  unfold gzipDecompress gzipCompress
  have hhd : (10 : Nat) = gzipHeader.length := rfl
  rw [List.append_assoc, List.append_assoc, hhd, List.take_left, List.drop_left,
    inflateStored_deflateStored]
  simp

/-- Every character value is below the Unicode bound. -/
theorem char_toNat_lt_bound (c : Char) : c.toNat < 1114112 := by
  have hdef : c.toNat = c.val.toNat := rfl
  rcases c.valid with h | h
  · have h2 : c.val.toNat < 55296 := h
    omega
  · have h2 : c.val.toNat < 1114112 := h.2
    omega

/-- UTF-8 encoding yields bytes. -/
theorem utf8Encode_lt (s : String) : ∀ b ∈ utf8Encode s, b < 256 := by
  intro b hb
  simp only [utf8Encode, List.mem_flatten, List.mem_map] at hb
  obtain ⟨l, ⟨c, hc, rfl⟩, hbl⟩ := hb
  have hcv := char_toNat_lt_bound c
  unfold utf8EncodeChar at hbl
  by_cases h1 : c.toNat < 128
  · rw [if_pos h1] at hbl
    simp at hbl
    omega
  · rw [if_neg h1] at hbl
    by_cases h2 : c.toNat < 2048
    · rw [if_pos h2] at hbl
      simp at hbl
      rcases hbl with hbl | hbl <;> omega
    · rw [if_neg h2] at hbl
      by_cases h3 : c.toNat < 65536
      · rw [if_pos h3] at hbl
        simp at hbl
        rcases hbl with hbl | hbl | hbl <;> omega
      · rw [if_neg h3] at hbl
        simp at hbl
        rcases hbl with hbl | hbl | hbl | hbl <;> omega

/-- Claim C4: for every model-definition instance, the base64 and gzip
compressed model stream, base64-decoded and gzip-decompressed, yields
exactly the bytes of the uncompressed JSON string produced from the same
instance. -/
theorem compressed_stream_decompresses_to_json
    (d : CInferenceModelDefinition) :
    decompressStream (jsonCompressedStream d) =
      some (utf8Encode (jsonString d)) := by
  unfold decompressStream jsonCompressedStream
  rw [base64Decode_encode _ (gzipCompress_lt _ (utf8Encode_lt _))]
  exact gzipDecompress_compress _

end MlApi
